import Mathlib

/-!
# Trace buffer and tracer of the tracing client (package `tracer`)

A shallow embedding of `traceBuffer` and its methods (`tracer/buffer.go`) and
of `Tracer`, its worker and `HTTPTransport` (`pkg/tracer/tracer.go`), and the
properties of both that the specification states.

Modelling conventions.

* A `*Span` is an address (`Addr`) into a span store (`Heap`).  The buffer
  keeps addresses, so a span that is finished after it was pushed is seen as
  finished by a later `flushable`.  The nil `*Span` is not a span and is not
  represented.
* The two channels of the buffer are represented by the sequence of items
  sent on them so far; a send appends one item (a receiver is assumed to be
  present, blocking is not modelled).
* The code is run sequentially: the reader/writer locks have no effect on
  the result of a single call and are left out.
* `maxSize` is a Go `int`, hence an `Int` here; `len(tb.spans)` is a natural
  number cast into `Int`.
-/

set_option linter.dupNamespace false

namespace Tracer

/-- Modelled from the spec: the `Span` type, which `buffer.go` and `tracer.go`
use but which is declared in a file that is not part of the sources at hand.
The fields are those of the specification's data model; `buffer.go` reads
`TraceID` and `finished` only.  `sink` is the channel given to the span when
it is created: `none` is the nil channel, `some c` the channel number `c`. -/
structure Span where
  TraceID : Nat
  SpanID : Nat
  ParentID : Nat
  Service : String
  Name : String
  Resource : String
  finished : Bool
  sink : Option Nat := none
deriving DecidableEq

/-- The address of a span: a non-nil `*Span`. -/
abbrev Addr := Nat

/-- The span store: the span found at each address. -/
abbrev Heap := Addr → Span

/-- Modelled from the spec: `Span.finish` (its source is not at hand), as far
as the buffer can observe it: the span at address `a` becomes finished, every
other field and every other span is left as it is. -/
def finish (h : Heap) (a : Addr) : Heap :=
  fun b => if b = a then { h b with finished := true } else h b

/-- The message of the error sent when the buffer is full. -/
def errExceed : String := "[TODO:christian] exceed buffer size"

/-- The message of the error sent when the trace identifiers differ. -/
def errMismatch : String := "[TODO:christian] trace ID mismatch"

/-- The struct `traceBuffer`.  `traceChan` and `errChan` hold what has been
sent on the two channels so far, oldest first. -/
structure traceBuffer where
  spans : List Addr
  maxSize : Int
  traceChan : List (List Addr)
  errChan : List String
deriving DecidableEq

/-- The constructor `newTraceBuffer`: only the two channels are set, `spans`
is the nil slice and `maxSize` is the zero value of `int`. -/
def newTraceBuffer (traceChan : List (List Addr)) (errChan : List String) : traceBuffer :=
  { spans := [], maxSize := 0, traceChan := traceChan, errChan := errChan }

namespace traceBuffer

/-- The method `push`. -/
def push (h : Heap) (tb : traceBuffer) (span : Addr) : traceBuffer :=
  -- if buffer is full, forget span
  if (tb.spans.length : Int) ≥ tb.maxSize then
    { tb with errChan := tb.errChan ++ [errExceed] }
  else
    -- if there's a trace ID mismatch, ignore span
    match tb.spans with
    | first :: _ =>
      if (h first).TraceID ≠ (h span).TraceID then
        { tb with errChan := tb.errChan ++ [errMismatch] }
      else
        { tb with spans := tb.spans ++ [span] }
    | [] => { tb with spans := tb.spans ++ [span] }

/-- The loop of `flushable`: the first unfinished span ends the scan with
`false`; the scan of a sequence without one ends with `true`. -/
def flushableLoop (h : Heap) : List Addr → Bool
  | [] => true
  | span :: rest => if !(h span).finished then false else flushableLoop h rest

/-- The method `flushable`.  It only reads the buffer. -/
def flushable (h : Heap) (tb : traceBuffer) : Bool :=
  if tb.spans.length = 0 then false else flushableLoop h tb.spans

/-- The method `flush`. -/
def flush (h : Heap) (tb : traceBuffer) : traceBuffer :=
  if !flushable h tb then tb
  else { tb with traceChan := tb.traceChan ++ [tb.spans], spans := [] }

/-- A call of the unexported method `push` through a receiver that may be
nil (`none`).  The outer `Option` is the outcome of the call: `none` is the
nil-pointer fault raised by `tb.Lock()` on a nil receiver. -/
def callPush (h : Heap) (tb : Option traceBuffer) (span : Addr) :
    Option (Option traceBuffer) :=
  match tb with
  | none => none
  | some b => some (some (push h b span))

/-- A call of the unexported method `flush` through a receiver that may be
nil; on a nil receiver `tb.flushable()` faults at `tb.RLock()`. -/
def callFlush (h : Heap) (tb : Option traceBuffer) : Option (Option traceBuffer) :=
  match tb with
  | none => none
  | some b => some (some (flush h b))

/-- The method `Push`: returns at once on a nil receiver. -/
def Push (h : Heap) (tb : Option traceBuffer) (span : Addr) :
    Option (Option traceBuffer) :=
  if tb = none then some tb else callPush h tb span

/-- The method `Flush`: returns at once on a nil receiver. -/
def Flush (h : Heap) (tb : Option traceBuffer) : Option (Option traceBuffer) :=
  if tb = none then some tb else callFlush h tb

end traceBuffer

open traceBuffer

/-- One operation on a buffer and the span store it refers to. -/
inductive Op where
  | push (span : Addr)
  | flushable
  | flush
  | finish (span : Addr)
deriving DecidableEq

/-- The effect of one operation on the span store and the buffer.
`flushable` returns a boolean and changes nothing. -/
def step (st : Heap × traceBuffer) : Op → Heap × traceBuffer
  | .push span => (st.1, push st.1 st.2 span)
  | .flushable => st
  | .flush => (st.1, flush st.1 st.2)
  | .finish span => (finish st.1 span, st.2)

/-- The effect of a sequence of operations, run from left to right. -/
def run (st : Heap × traceBuffer) (ops : List Op) : Heap × traceBuffer :=
  ops.foldl step st

/-- Pushing the spans of `xs` in order. -/
def pushAll (h : Heap) (tb : traceBuffer) (xs : List Addr) : traceBuffer :=
  xs.foldl (push h) tb

/-- Finishing the spans of `xs` in order. -/
def finishAll (h : Heap) (xs : List Addr) : Heap :=
  xs.foldl finish h

/-- Calling `flush` `n` times. -/
def flushTimes (h : Heap) : Nat → traceBuffer → traceBuffer
  | 0, tb => tb
  | n + 1, tb => flushTimes h n (flush h tb)

/-- All spans of a sequence have the same trace identifier. -/
def sameTrace (h : Heap) (xs : List Addr) : Prop :=
  ∀ a ∈ xs, ∀ b ∈ xs, (h a).TraceID = (h b).TraceID

instance (h : Heap) (xs : List Addr) : Decidable (sameTrace h xs) :=
  inferInstanceAs (Decidable (∀ a ∈ xs, ∀ b ∈ xs, (h a).TraceID = (h b).TraceID))

/-- The trace invariant of a state: the buffered spans belong to one trace,
and so do the spans of every trace sent on the delivery channel. -/
def TraceInv (st : Heap × traceBuffer) : Prop :=
  sameTrace st.1 st.2.spans ∧ ∀ t ∈ st.2.traceChan, sameTrace st.1 t

/-- The size invariant of a buffer: it holds at most `maxSize` spans. -/
def SizeInv (tb : traceBuffer) : Prop :=
  (tb.spans.length : Int) ≤ tb.maxSize

/-- An operation that is not a push. -/
def Op.isPush : Op → Bool
  | .push _ => true
  | _ => false

/-- The empty buffer with capacity `m` and nothing sent yet on the delivery
channel. -/
def emptyBuffer (m : Int) (errChan : List String) : traceBuffer :=
  { spans := [], maxSize := m, traceChan := [], errChan := errChan }

/-- A span store for examples: address `a` holds an unfinished span of trace
`t a`. -/
def exampleHeap (t : Addr → Nat) : Heap :=
  fun a => { TraceID := t a, SpanID := a + 1, ParentID := 0, Service := "svc",
             Name := "op", Resource := "res", finished := false }

/-! ## The tracer (`pkg/tracer/tracer.go`) -/

/-- The constant `defaultDeliveryURL`. -/
def defaultDeliveryURL : String := "http://localhost:7777/spans"

/-- The struct `HTTPTransport`. -/
structure HTTPTransport where
  URL : String
deriving DecidableEq

/-- The constructor `NewHTTPTransport`. -/
def NewHTTPTransport (url : String) : HTTPTransport :=
  { URL := url }

/-- The method `HTTPTransport.Send`.  The receiver may be nil (`none`): the
body never reads it.  The outer `Option` is the outcome of the call (`some`:
the call returned), the inner one the returned `error` (`none` is the nil
error). -/
def HTTPTransport.Send (_t : Option HTTPTransport) (url _header : String)
    (_spans : List Addr) : Option (Option String) :=
  if url = "" then some none
  else
    -- TODO: do something
    some none

/-- The struct `Tracer`.  `Transport` holds the one implementation of the
interface that the package has; `outgoingPacket` is the nil channel (`none`)
or the channel number `c` (`some c`); `wg` is the counter of the wait
group. -/
structure Tracer where
  Transport : HTTPTransport
  outgoingPacket : Option Nat
  wg : Int
deriving DecidableEq

/-- The constructor `NewTracer`: only `Transport` is set, the channel is nil
and the wait group is at its zero value. -/
def NewTracer : Tracer :=
  { Transport := NewHTTPTransport defaultDeliveryURL, outgoingPacket := none, wg := 0 }

/-- One call of `Transport.Send`, as seen from outside. -/
structure SendCall where
  url : String
  header : String
  spans : List Addr
deriving DecidableEq

/-- A tracer together with what its methods do to the rest of the program:
`chans` channels have been made so far (the next `make` yields channel number
`chans`), `workers` goroutines running `worker` have been started, `sent`
lists the calls of `Transport.Send` made so far and `log` the lines
logged. -/
structure TracerState where
  t : Tracer
  chans : Nat
  workers : Nat
  sent : List SendCall
  log : List String
deriving DecidableEq

/-- The state of the program right after `NewTracer`. -/
def newTracerState : TracerState :=
  { t := NewTracer, chans := 0, workers := 0, sent := [], log := [] }

/-- Modelled from the spec: `NewSpan` (the specification's `create`), whose
source is not at hand: a span in the started state that holds each argument
in the field of that name. -/
def NewSpan (spanID traceID parentID : Nat) (service name resource : String)
    (sink : Option Nat) : Span :=
  { TraceID := traceID, SpanID := spanID, ParentID := parentID, Service := service,
    Name := name, Resource := resource, finished := false, sink := sink }

namespace Tracer

/-- The method `Trace`.  `spanID` is what the call of `nextSpanID()` returns
(that function is not part of the sources at hand). -/
def Trace (w : TracerState) (spanID : Nat) (service name resource : String) :
    TracerState × Span :=
  -- first use of this tracer: make the channel, start the worker
  let w1 : TracerState :=
    if w.t.outgoingPacket = none then
      { w with t := { w.t with outgoingPacket := some w.chans },
               chans := w.chans + 1, workers := w.workers + 1 }
    else w
  (w1, NewSpan spanID spanID 0 service name resource w1.t.outgoingPacket)

/-- The method `Wait`: `t.wg.Wait()` returns when the counter is zero
(`some`); with a counter that is not zero and nobody left to lower it, it
does not return (`none`). -/
def Wait (w : TracerState) : Option TracerState :=
  if w.t.wg = 0 then some w else none

/-- The body of the loop of `worker`, for one span received from
`outgoingPacket`: the counter is raised and a line is logged. -/
def workerBody (h : Heap) (w : TracerState) (span : Addr) : TracerState :=
  { w with t := { w.t with wg := w.t.wg + 1 },
           log := w.log ++ ["Working on span " ++ toString (h span).SpanID ++ " "] }

/-- The method `worker`, run on the spans it receives, in order. -/
def worker (h : Heap) (w : TracerState) (items : List Addr) : TracerState :=
  items.foldl (workerBody h) w

end Tracer

/-- The arguments of one call of `Trace`: the identifier that `nextSpanID`
yields, then service, name and resource. -/
structure TraceArgs where
  spanID : Nat
  service : String
  name : String
  resource : String
deriving DecidableEq

/-- A sequence of calls of `Trace` on one tracer, one after the other; the
spans returned are collected in order. -/
def traceCalls (w : TracerState) : List TraceArgs → TracerState × List Span
  | [] => (w, [])
  | c :: rest =>
    let r := Tracer.Trace w c.spanID c.service c.name c.resource
    let rs := traceCalls r.1 rest
    (rs.1, r.2 :: rs.2)

/-! ## Goroutines sharing one buffer -/

/-- The second half of `flush`, run under the exclusive lock: the span
sequence is sent on the delivery channel and the buffer is cleared. -/
def traceBuffer.emit (tb : traceBuffer) : traceBuffer :=
  { tb with traceChan := tb.traceChan ++ [tb.spans], spans := [] }

/-- The atomic actions of goroutines that share one buffer.  `push` and
`finish` run under an exclusive lock each.  A call of `flush` is two actions:
`flushCheck` is the call of `flushable` under the shared lock, `flushEmit` is
the part of `flush` under the exclusive lock, which a goroutine reaches only
after its own check returned true.  Between the two the buffer is
unlocked. -/
inductive Act where
  | push (span : Addr)
  | finish (span : Addr)
  | flushCheck
  | flushEmit
deriving DecidableEq

/-- The state shared by the goroutines: span store, buffer, and the number
of goroutines that are inside `flush` past a check that returned true and
before taking the exclusive lock. -/
structure Shared where
  h : Heap
  tb : traceBuffer
  passed : Nat

/-- One atomic action; `none` when the action cannot be the next one
(`flushEmit` with no goroutine past its check). -/
def act (s : Shared) : Act → Option Shared
  | .push span => some { s with tb := push s.h s.tb span }
  | .finish span => some { s with h := finish s.h span }
  | .flushCheck =>
    if flushable s.h s.tb then some { s with passed := s.passed + 1 } else some s
  | .flushEmit =>
    if s.passed = 0 then none
    else some { s with passed := s.passed - 1, tb := s.tb.emit }

/-- An interleaving: the atomic actions of all goroutines in the order in
which they take place. -/
def interleave (s : Shared) : List Act → Option Shared
  | [] => some s
  | a :: rest =>
    match act s a with
    | none => none
    | some s1 => interleave s1 rest

/-! ## Lemmas on the three outcomes of `push` -/

theorem push_full (h : Heap) (tb : traceBuffer) (span : Addr)
    (hfull : tb.maxSize ≤ (tb.spans.length : Int)) :
    push h tb span = { tb with errChan := tb.errChan ++ [errExceed] } := by
  unfold push
  rw [if_pos (ge_iff_le.mpr hfull)]

theorem push_mismatch (h : Heap) (tb : traceBuffer) (span first : Addr) (rest : List Addr)
    (hroom : (tb.spans.length : Int) < tb.maxSize) (hsp : tb.spans = first :: rest)
    (hne : (h first).TraceID ≠ (h span).TraceID) :
    push h tb span = { tb with errChan := tb.errChan ++ [errMismatch] } := by
  unfold push
  rw [if_neg (by simpa using hroom)]
  split
  · rename_i f r heq
    rw [hsp] at heq
    injection heq with h1 _
    subst h1
    rw [if_pos hne]
  · rename_i heq
    rw [hsp] at heq
    exact absurd heq (by simp)

theorem push_accept (h : Heap) (tb : traceBuffer) (span : Addr)
    (hroom : (tb.spans.length : Int) < tb.maxSize)
    (hsame : ∀ first, tb.spans.head? = some first → (h first).TraceID = (h span).TraceID) :
    push h tb span = { tb with spans := tb.spans ++ [span] } := by
  unfold push
  rw [if_neg (by simpa using hroom)]
  split
  · rename_i f r heq
    have := hsame f (by rw [heq]; rfl)
    rw [if_neg (by simpa using this)]
  · rfl

/-- Whatever `push` does, `maxSize` and the delivery channel stay as they
are, and the span sequence is either unchanged or extended by the pushed
span. -/
theorem push_frame (h : Heap) (tb : traceBuffer) (span : Addr) :
    (push h tb span).maxSize = tb.maxSize ∧ (push h tb span).traceChan = tb.traceChan := by
  unfold push
  split
  · exact ⟨rfl, rfl⟩
  · split
    · split <;> exact ⟨rfl, rfl⟩
    · exact ⟨rfl, rfl⟩

/-! ## Lemmas on `flushable` and `flush` -/

theorem flushableLoop_eq_true (h : Heap) (xs : List Addr) :
    flushableLoop h xs = true ↔ ∀ a ∈ xs, (h a).finished = true := by
  induction xs with
  | nil => simp [flushableLoop]
  | cons x rest ih =>
    cases hx : (h x).finished <;> simp [flushableLoop, hx, ih]

theorem flushable_eq_true (h : Heap) (tb : traceBuffer) :
    flushable h tb = true ↔ tb.spans ≠ [] ∧ ∀ a ∈ tb.spans, (h a).finished = true := by
  unfold flushable
  by_cases hl : tb.spans.length = 0
  · rw [if_pos hl]
    have : tb.spans = [] := List.length_eq_zero.mp hl
    simp [this]
  · rw [if_neg hl, flushableLoop_eq_true]
    have : tb.spans ≠ [] := fun e => hl (by rw [e]; rfl)
    simp [this]

theorem flushable_nil (h : Heap) (tb : traceBuffer) (he : tb.spans = []) :
    flushable h tb = false := by
  unfold flushable
  rw [if_pos (by rw [he]; rfl)]

theorem flush_of_flushable (h : Heap) (tb : traceBuffer) (hf : flushable h tb = true) :
    flush h tb = { tb with traceChan := tb.traceChan ++ [tb.spans], spans := [] } := by
  unfold flush
  rw [hf]
  rfl

theorem flush_of_not_flushable (h : Heap) (tb : traceBuffer) (hf : flushable h tb = false) :
    flush h tb = tb := by
  unfold flush
  rw [hf]
  rfl

theorem flush_nil (h : Heap) (tb : traceBuffer) (he : tb.spans = []) : flush h tb = tb :=
  flush_of_not_flushable h tb (flushable_nil h tb he)

theorem flushTimes_nil (h : Heap) (n : Nat) (tb : traceBuffer) (he : tb.spans = []) :
    flushTimes h n tb = tb := by
  induction n with
  | zero => rfl
  | succ n ih => rw [flushTimes, flush_nil h tb he, ih]

/-- Pushing a run of spans of one trace into a buffer of that trace with
capacity `m`: the spans that still fit are appended in order, each of the
others costs one overflow error. -/
theorem pushAll_sameTrace (h : Heap) (m : Nat) (xs : List Addr) :
    ∀ tb : traceBuffer, tb.maxSize = (m : Int) → tb.spans.length ≤ m →
      sameTrace h (tb.spans ++ xs) →
      pushAll h tb xs =
        { tb with
          spans := tb.spans ++ xs.take (m - tb.spans.length),
          errChan := tb.errChan ++
            List.replicate (xs.length - (m - tb.spans.length)) errExceed } := by
  induction xs with
  | nil =>
    intro tb _ _ _
    simp [pushAll]
  | cons x rest ih =>
    intro tb hm hlen hst
    by_cases hfull : tb.spans.length = m
    · have hp : push h tb x = { tb with errChan := tb.errChan ++ [errExceed] } :=
        push_full h tb x (by rw [hm, hfull])
      have hst2 : sameTrace h (tb.spans ++ rest) := by
        intro a ha b hb
        apply hst a _ b _
        · simp only [List.mem_append, List.mem_cons] at ha ⊢; tauto
        · simp only [List.mem_append, List.mem_cons] at hb ⊢; tauto
      have := ih { tb with errChan := tb.errChan ++ [errExceed] } hm hlen hst2
      show pushAll h (push h tb x) rest = _
      rw [hp, this]
      simp [hfull, List.replicate_succ]
    · have hlt : tb.spans.length < m := lt_of_le_of_ne hlen hfull
      have hp : push h tb x = { tb with spans := tb.spans ++ [x] } := by
        apply push_accept h tb x (by rw [hm]; exact_mod_cast hlt)
        intro first hf
        apply hst
        · have := List.mem_of_mem_head? hf
          simp [this]
        · simp
      have hst2 : sameTrace h ((tb.spans ++ [x]) ++ rest) := by
        simpa using hst
      have := ih { tb with spans := tb.spans ++ [x] } hm (by simpa using hlt) hst2
      show pushAll h (push h tb x) rest = _
      rw [hp, this]
      obtain ⟨d, hd⟩ : ∃ d, m - tb.spans.length = d + 1 :=
        ⟨m - tb.spans.length - 1, by omega⟩
      have hd2 : m - (tb.spans.length + 1) = d := by omega
      simp [hd, hd2]

/-! ## Invariants along a run -/

theorem finish_TraceID (h : Heap) (a b : Addr) : (finish h a b).TraceID = (h b).TraceID := by
  unfold finish
  split <;> rfl

theorem sameTrace_finish (h : Heap) (a : Addr) (xs : List Addr) :
    sameTrace (finish h a) xs ↔ sameTrace h xs := by
  unfold sameTrace
  simp only [finish_TraceID]

theorem sameTrace_push (h : Heap) (tb : traceBuffer) (span : Addr)
    (hst : sameTrace h tb.spans) : sameTrace h (push h tb span).spans := by
  unfold push
  split
  · exact hst
  · split
    · rename_i first rest heq
      split
      · exact hst
      · rename_i heq2
        have hfs : (h first).TraceID = (h span).TraceID := by simpa using heq2
        have hall : ∀ c ∈ tb.spans ++ [span], (h c).TraceID = (h first).TraceID := by
          intro c hc
          rcases List.mem_append.mp hc with hc | hc
          · exact hst c hc first (by rw [heq]; simp)
          · rw [List.mem_singleton.mp hc, hfs]
        intro a ha b hb
        rw [hall a ha, hall b hb]
    · rename_i heq
      intro a ha b hb
      simp only [heq, List.nil_append, List.mem_singleton] at ha hb
      rw [ha, hb]

theorem TraceInv_step (st : Heap × traceBuffer) (op : Op) (hinv : TraceInv st) :
    TraceInv (step st op) := by
  obtain ⟨h, tb⟩ := st
  obtain ⟨hsp, htc⟩ := hinv
  cases op with
  | push a =>
    refine ⟨sameTrace_push h tb a hsp, ?_⟩
    show ∀ t ∈ (push h tb a).traceChan, sameTrace h t
    rw [(push_frame h tb a).2]
    exact htc
  | flushable => exact ⟨hsp, htc⟩
  | flush =>
    show sameTrace h (flush h tb).spans ∧ ∀ t ∈ (flush h tb).traceChan, sameTrace h t
    cases hf : flushable h tb with
    | false =>
      rw [flush_of_not_flushable h tb hf]
      exact ⟨hsp, htc⟩
    | true =>
      rw [flush_of_flushable h tb hf]
      refine ⟨fun a ha => absurd ha (List.not_mem_nil a), ?_⟩
      intro t ht
      rcases List.mem_append.mp ht with ht | ht
      · exact htc t ht
      · rw [List.mem_singleton.mp ht]
        exact hsp
  | finish a =>
    exact ⟨(sameTrace_finish h a tb.spans).mpr hsp,
      fun t ht => (sameTrace_finish h a t).mpr (htc t ht)⟩

theorem TraceInv_run (ops : List Op) :
    ∀ st : Heap × traceBuffer, TraceInv st → TraceInv (run st ops) := by
  induction ops with
  | nil => intro st hinv; exact hinv
  | cons op rest ih => intro st hinv; exact ih (step st op) (TraceInv_step st op hinv)

theorem SizeInv_step (st : Heap × traceBuffer) (op : Op) (hinv : SizeInv st.2) :
    SizeInv (step st op).2 ∧ (step st op).2.maxSize = st.2.maxSize := by
  obtain ⟨h, tb⟩ := st
  unfold SizeInv at hinv ⊢
  replace hinv : (tb.spans.length : Int) ≤ tb.maxSize := hinv
  cases op with
  | push a =>
    show ((push h tb a).spans.length : Int) ≤ (push h tb a).maxSize ∧
      (push h tb a).maxSize = tb.maxSize
    by_cases hfull : tb.maxSize ≤ (tb.spans.length : Int)
    · rw [push_full h tb a hfull]
      exact ⟨hinv, rfl⟩
    · refine ⟨?_, (push_frame h tb a).1⟩
      rw [(push_frame h tb a).1]
      have hlt : (tb.spans.length : Int) < tb.maxSize := lt_of_not_le hfull
      unfold push
      rw [if_neg (by simpa using hlt)]
      split
      · split
        · exact hinv
        · simp only [List.length_append, List.length_singleton]
          push_cast
          omega
      · simp only [List.length_append, List.length_singleton]
        push_cast
        omega
  | flushable => exact ⟨hinv, rfl⟩
  | flush =>
    show ((flush h tb).spans.length : Int) ≤ (flush h tb).maxSize ∧
      (flush h tb).maxSize = tb.maxSize
    cases hf : flushable h tb with
    | false =>
      rw [flush_of_not_flushable h tb hf]
      exact ⟨hinv, rfl⟩
    | true =>
      rw [flush_of_flushable h tb hf]
      refine ⟨?_, rfl⟩
      have : (0 : Int) ≤ (tb.spans.length : Int) := Int.natCast_nonneg _
      simp only [List.length_nil, Nat.cast_zero]
      omega
  | finish a => exact ⟨hinv, rfl⟩

theorem SizeInv_run (ops : List Op) :
    ∀ st : Heap × traceBuffer, SizeInv st.2 →
      SizeInv (run st ops).2 ∧ (run st ops).2.maxSize = st.2.maxSize := by
  induction ops with
  | nil => intro st hinv; exact ⟨hinv, rfl⟩
  | cons op rest ih =>
    intro st hinv
    have h1 := SizeInv_step st op hinv
    have h2 := ih (step st op) h1.1
    exact ⟨h2.1, h2.2.trans h1.2⟩

/-! ## What the buffer does once it has a capacity -/

theorem finish_finished (h : Heap) (a b : Addr) (hb : (h b).finished = true) :
    (finish h a b).finished = true := by
  unfold finish
  split
  · rfl
  · exact hb

theorem finishAll_keeps (xs : List Addr) :
    ∀ (h : Heap) (b : Addr), (h b).finished = true → (finishAll h xs b).finished = true := by
  induction xs with
  | nil => intro h b hb; exact hb
  | cons x rest ih => intro h b hb; exact ih (finish h x) b (finish_finished h x b hb)

theorem finishAll_finished (xs : List Addr) :
    ∀ (h : Heap), ∀ a ∈ xs, (finishAll h xs a).finished = true := by
  induction xs with
  | nil => intro h a ha; exact absurd ha (List.not_mem_nil a)
  | cons x rest ih =>
    intro h a ha
    rcases List.mem_cons.mp ha with hax | har
    · subst hax
      exact finishAll_keeps rest (finish h a) a (by simp [finish])
    · exact ih (finish h x) a har

/-- With a capacity of at least `N`, the buffer does deliver: `N ≥ 1` spans
of one trace are pushed into an empty buffer, all are finished, and `flush`
is called `k + 1` times; the delivery channel then holds the one trace, which
is the pushed sequence, and no error was sent. -/
theorem deliver_once_with_capacity (h : Heap) (m : Nat) (errs : List String)
    (xs : List Addr) (k : Nat) (hne : xs ≠ []) (hcap : xs.length ≤ m)
    (hst : sameTrace h xs) :
    flushTimes (finishAll h xs) (k + 1) (pushAll h (emptyBuffer (m : Int) errs) xs)
      = { spans := [], maxSize := (m : Int), traceChan := [xs], errChan := errs } := by
  have hp := pushAll_sameTrace h m xs (emptyBuffer (m : Int) errs) rfl
    (Nat.zero_le m) (by simpa [emptyBuffer] using hst)
  have hp2 : pushAll h (emptyBuffer (m : Int) errs) xs
      = { spans := xs, maxSize := (m : Int), traceChan := [], errChan := errs } := by
    rw [hp]
    simp [emptyBuffer, List.take_of_length_le hcap, Nat.sub_eq_zero_of_le hcap]
  rw [hp2]
  have hf : flushable (finishAll h xs)
      { spans := xs, maxSize := (m : Int), traceChan := [], errChan := errs } = true :=
    (flushable_eq_true _ _).mpr ⟨hne, finishAll_finished xs h⟩
  show flushTimes (finishAll h xs) k (flush (finishAll h xs) _) = _
  rw [flush_of_flushable _ _ hf]
  exact flushTimes_nil _ k _ rfl

/-! ## The claims -/

/-- C1 (the code departs from the claim). One span of trace 1 is pushed into
the buffer built by `newTraceBuffer`, then finished, then `flush` is called
once. The claim asks for exactly one trace `[0]` on the delivery channel and
no error; the code delivers nothing and reports one overflow error, because
`newTraceBuffer` leaves `maxSize` at 0 and `push` rejects at
`len(tb.spans) >= tb.maxSize`. -/
theorem C1_newTraceBuffer_never_delivers :
    (run (exampleHeap (fun _ => 1), newTraceBuffer [] []) [.push 0, .finish 0, .flush]).2
      = { spans := [], maxSize := 0, traceChan := [], errChan := [errExceed] }
    ∧ ((run (exampleHeap (fun _ => 1), newTraceBuffer [] [])
          [.push 0, .finish 0, .flush]).1 0).finished = true := by
  constructor
  · decide
  · decide

/-- C2. `flush` on a buffer `s`: when `flushable` holds, exactly one item is
appended to the delivery channel, it is the whole span sequence of `s`, the
span sequence becomes empty, and `maxSize` and the error channel are
unchanged; when `flushable` does not hold, the buffer is unchanged (so
nothing is sent). -/
theorem C2_flush (h : Heap) (s : traceBuffer) :
    (flushable h s = true →
      (flush h s).traceChan = s.traceChan ++ [s.spans] ∧ (flush h s).spans = [] ∧
      (flush h s).maxSize = s.maxSize ∧ (flush h s).errChan = s.errChan) ∧
    (flushable h s = false → flush h s = s) := by
  constructor
  · intro hf
    rw [flush_of_flushable h s hf]
    exact ⟨rfl, rfl, rfl, rfl⟩
  · exact flush_of_not_flushable h s

/-- Witness of C2: a buffer of two finished spans is flushed, a buffer with an
unfinished span is left alone. -/
theorem C2_flush_witness :
    ((flush (finish (finish (exampleHeap (fun _ => 1)) 0) 1)
        { spans := [0, 1], maxSize := 5, traceChan := [[7]], errChan := ["e"] }).traceChan
        = [[7]] ++ [[0, 1]]) ∧
    (flush (finish (exampleHeap (fun _ => 1)) 0)
        { spans := [0, 1], maxSize := 5, traceChan := [[7]], errChan := ["e"] }
      = { spans := [0, 1], maxSize := 5, traceChan := [[7]], errChan := ["e"] }) :=
  ⟨((C2_flush (finish (finish (exampleHeap (fun _ => 1)) 0) 1)
        { spans := [0, 1], maxSize := 5, traceChan := [[7]], errChan := ["e"] }).1
        (by decide)).1,
   (C2_flush (finish (exampleHeap (fun _ => 1)) 0)
        { spans := [0, 1], maxSize := 5, traceChan := [[7]], errChan := ["e"] }).2
        (by decide)⟩

/-- C3. For every buffer, `flushable` returns false if the buffer is empty or
if at least one buffered span is unfinished. -/
theorem C3_flushable_false (h : Heap) (s : traceBuffer)
    (hs : s.spans = [] ∨ ∃ a ∈ s.spans, (h a).finished = false) :
    flushable h s = false := by
  rcases hs with he | ⟨a, ha, hfin⟩
  · exact flushable_nil h s he
  · cases hf : flushable h s with
    | false => rfl
    | true =>
      have := ((flushable_eq_true h s).mp hf).2 a ha
      rw [hfin] at this
      exact absurd this (by decide)

/-- Witness of C3: of three buffered spans only the last is unfinished. -/
theorem C3_flushable_false_witness :
    flushable (finish (finish (exampleHeap (fun _ => 1)) 0) 1)
      { spans := [0, 1, 2], maxSize := 5, traceChan := [], errChan := [] } = false :=
  C3_flushable_false (finish (finish (exampleHeap (fun _ => 1)) 0) 1)
    { spans := [0, 1, 2], maxSize := 5, traceChan := [], errChan := [] }
    (Or.inr ⟨2, by decide, by decide⟩)

/-- C4. For every non-empty buffer and every span whose trace identifier
differs from that of the buffered spans, `push` leaves the span sequence
unchanged and appends exactly one error to the error channel (the overflow
error when the buffer is also full, the mismatch error otherwise); nothing is
sent on the delivery channel and `maxSize` is unchanged. -/
theorem C4_push_mismatch (h : Heap) (s : traceBuffer) (span : Addr)
    (hne : s.spans ≠ [])
    (hdiff : ∀ a ∈ s.spans, (h a).TraceID ≠ (h span).TraceID) :
    (push h s span).spans = s.spans ∧
    (push h s span).errChan =
      s.errChan ++ [if s.maxSize ≤ (s.spans.length : Int) then errExceed else errMismatch] ∧
    (push h s span).traceChan = s.traceChan ∧
    (push h s span).maxSize = s.maxSize := by
  by_cases hfull : s.maxSize ≤ (s.spans.length : Int)
  · rw [push_full h s span hfull, if_pos hfull]
    exact ⟨rfl, rfl, rfl, rfl⟩
  · obtain ⟨first, rest, hsp⟩ := List.exists_cons_of_ne_nil hne
    have hd : (h first).TraceID ≠ (h span).TraceID := hdiff first (by rw [hsp]; simp)
    rw [push_mismatch h s span first rest (lt_of_not_le hfull) hsp hd, if_neg hfull]
    exact ⟨rfl, rfl, rfl, rfl⟩

/-- Witness of C4: a span of trace 2 is pushed into a buffer holding two spans
of trace 1. -/
theorem C4_push_mismatch_witness :
    (push (exampleHeap (fun a => if a = 2 then 2 else 1))
        { spans := [0, 1], maxSize := 5, traceChan := [], errChan := [] } 2).spans = [0, 1] ∧
    (push (exampleHeap (fun a => if a = 2 then 2 else 1))
        { spans := [0, 1], maxSize := 5, traceChan := [], errChan := [] } 2).errChan
      = [] ++ [if (5 : Int) ≤ ((2 : Nat) : Int) then errExceed else errMismatch] ∧
    (push (exampleHeap (fun a => if a = 2 then 2 else 1))
        { spans := [0, 1], maxSize := 5, traceChan := [], errChan := [] } 2).traceChan = [] ∧
    (push (exampleHeap (fun a => if a = 2 then 2 else 1))
        { spans := [0, 1], maxSize := 5, traceChan := [], errChan := [] } 2).maxSize = 5 :=
  C4_push_mismatch (exampleHeap (fun a => if a = 2 then 2 else 1))
    { spans := [0, 1], maxSize := 5, traceChan := [], errChan := [] } 2
    (by decide) (by decide)

/-- C5. (1) For every buffer whose number of spans is at or above `maxSize`
and every span, `push` is rejected: the buffer is unchanged but for exactly
one overflow error appended to the error channel. (2) Pushing `m + k` spans
of one trace into an empty buffer of capacity `m` accepts exactly the first
`m`, in order, and appends exactly `k` overflow errors. -/
theorem C5_push_overflow :
    (∀ (h : Heap) (s : traceBuffer) (span : Addr),
      s.maxSize ≤ (s.spans.length : Int) →
      (push h s span).spans = s.spans ∧
      (push h s span).errChan = s.errChan ++ [errExceed] ∧
      (push h s span).traceChan = s.traceChan ∧
      (push h s span).maxSize = s.maxSize) ∧
    (∀ (h : Heap) (s : traceBuffer) (m k : Nat) (xs : List Addr),
      s.spans = [] → s.maxSize = (m : Int) → xs.length = m + k → sameTrace h xs →
      (pushAll h s xs).spans = xs.take m ∧
      (pushAll h s xs).errChan = s.errChan ++ List.replicate k errExceed ∧
      (pushAll h s xs).traceChan = s.traceChan ∧
      (pushAll h s xs).maxSize = s.maxSize) := by
  constructor
  · intro h s span hfull
    rw [push_full h s span hfull]
    exact ⟨rfl, rfl, rfl, rfl⟩
  · intro h s m k xs hnil hm hlen hst
    have := pushAll_sameTrace h m xs s hm (by rw [hnil]; simp) (by rw [hnil]; simpa using hst)
    rw [this, hnil, hlen]
    simp

/-- Witness of C5: a full buffer of capacity 2 rejects a third span, and
three spans of one trace pushed into an empty buffer of capacity 2 leave the
first two buffered and one overflow error. -/
theorem C5_push_overflow_witness :
    ((push (exampleHeap (fun _ => 1))
        { spans := [0, 1], maxSize := 2, traceChan := [], errChan := [] } 2).spans = [0, 1]) ∧
    ((pushAll (exampleHeap (fun _ => 1)) (emptyBuffer 2 []) [0, 1, 2]).spans
        = [0, 1, 2].take 2 ∧
     (pushAll (exampleHeap (fun _ => 1)) (emptyBuffer 2 []) [0, 1, 2]).errChan
        = [] ++ List.replicate 1 errExceed) :=
  ⟨(C5_push_overflow.1 (exampleHeap (fun _ => 1))
      { spans := [0, 1], maxSize := 2, traceChan := [], errChan := [] } 2 (by decide)).1,
   (C5_push_overflow.2 (exampleHeap (fun _ => 1)) (emptyBuffer 2 []) 2 1 [0, 1, 2]
      rfl rfl rfl (fun _ _ _ _ => rfl)).1,
   (C5_push_overflow.2 (exampleHeap (fun _ => 1)) (emptyBuffer 2 []) 2 1 [0, 1, 2]
      rfl rfl rfl (fun _ _ _ _ => rfl)).2.1⟩

/-- C6. `flush` is idempotent, and after a flush that succeeded the buffer is
empty, `flushable` is false whatever the spans' flags become, every sequence
of operations without a push leaves the buffer as the flush left it, and any
number of further calls of `flush` leaves the delivery channel with the one
trace: the trace is sent exactly once. -/
theorem C6_flush_once :
    (∀ (h : Heap) (s : traceBuffer), flush h (flush h s) = flush h s) ∧
    (∀ (h : Heap) (s : traceBuffer), flushable h s = true →
      (flush h s).spans = [] ∧
      (∀ h2 : Heap, flushable h2 (flush h s) = false) ∧
      (∀ (h2 : Heap) (ops : List Op), (∀ op ∈ ops, op.isPush = false) →
        (run (h2, flush h s) ops).2 = flush h s) ∧
      (∀ n : Nat, flushTimes h (n + 1) s = flush h s) ∧
      (∀ n : Nat, (flushTimes h (n + 1) s).traceChan = s.traceChan ++ [s.spans])) := by
  have hempty : ∀ (h : Heap) (s : traceBuffer), flushable h s = true →
      (flush h s).spans = [] := by
    intro h s hf
    rw [flush_of_flushable h s hf]
  have hrun : ∀ (ops : List Op) (h2 : Heap) (tb : traceBuffer), tb.spans = [] →
      (∀ op ∈ ops, op.isPush = false) → (run (h2, tb) ops).2 = tb := by
    intro ops
    induction ops with
    | nil => intro h2 tb _ _; rfl
    | cons op rest ih =>
      intro h2 tb he hop
      have hrest : ∀ o ∈ rest, o.isPush = false := fun o ho => hop o (List.mem_cons_of_mem _ ho)
      have hhead := hop op (List.mem_cons_self _ _)
      cases op with
      | push a => simp [Op.isPush] at hhead
      | flushable => exact ih h2 tb he hrest
      | flush =>
        show (run (h2, flush h2 tb) rest).2 = tb
        rw [flush_nil h2 tb he]
        exact ih h2 tb he hrest
      | finish a => exact ih (finish h2 a) tb he hrest
  refine ⟨?_, ?_⟩
  · intro h s
    cases hf : flushable h s with
    | false => rw [flush_of_not_flushable h s hf, flush_of_not_flushable h s hf]
    | true => exact flush_nil h _ (hempty h s hf)
  · intro h s hf
    have hn : ∀ n : Nat, flushTimes h (n + 1) s = flush h s := fun n =>
      flushTimes_nil h n _ (hempty h s hf)
    refine ⟨hempty h s hf, fun h2 => flushable_nil h2 _ (hempty h s hf),
      fun h2 ops hops => hrun ops h2 _ (hempty h s hf) hops, hn, ?_⟩
    intro n
    rw [hn n, flush_of_flushable h s hf]

/-- Witness of C6: a buffer of two finished spans is flushed three times; the
delivery channel holds the one trace. -/
theorem C6_flush_once_witness :
    (flushTimes (finish (finish (exampleHeap (fun _ => 1)) 0) 1) (2 + 1)
      { spans := [0, 1], maxSize := 5, traceChan := [], errChan := [] }).traceChan
      = [] ++ [[0, 1]] :=
  (C6_flush_once.2 (finish (finish (exampleHeap (fun _ => 1)) 0) 1)
    { spans := [0, 1], maxSize := 5, traceChan := [], errChan := [] } (by decide)).2.2.2.2 2

/-- C7. The trace invariant (all buffered spans have one trace identifier,
and so have the spans of every trace sent) holds for every empty buffer that
has sent nothing, is preserved by every operation (`push`, `flushable`,
`flush`, and a span being finished), and so holds in every state reached
from an empty buffer of any capacity by any sequence of operations; in
particular every trace on the delivery channel is of a single trace
identifier. -/
theorem C7_trace_invariant :
    (∀ (h : Heap) (s : traceBuffer), s.spans = [] → s.traceChan = [] → TraceInv (h, s)) ∧
    (∀ (st : Heap × traceBuffer) (op : Op), TraceInv st → TraceInv (step st op)) ∧
    (∀ (h : Heap) (m : Int) (errs : List String) (ops : List Op),
      TraceInv (run (h, emptyBuffer m errs) ops) ∧
      ∀ t ∈ (run (h, emptyBuffer m errs) ops).2.traceChan,
        ∀ a ∈ t, ∀ b ∈ t,
          ((run (h, emptyBuffer m errs) ops).1 a).TraceID
            = ((run (h, emptyBuffer m errs) ops).1 b).TraceID) := by
  have hinit : ∀ (h : Heap) (s : traceBuffer), s.spans = [] → s.traceChan = [] →
      TraceInv (h, s) := by
    intro h s hs ht
    refine ⟨?_, ?_⟩
    · show sameTrace h s.spans
      rw [hs]
      exact fun a ha => absurd ha (List.not_mem_nil a)
    · show ∀ t ∈ s.traceChan, sameTrace h t
      rw [ht]
      exact fun t ht => absurd ht (List.not_mem_nil t)
  refine ⟨hinit, TraceInv_step, ?_⟩
  intro h m errs ops
  have hr := TraceInv_run ops (h, emptyBuffer m errs) (hinit h _ rfl rfl)
  exact ⟨hr, fun t ht => hr.2 t ht⟩

/-- Witness of C7: a buffer holding two spans of trace 1 keeps the invariant
when a span of trace 2 is pushed. -/
theorem C7_trace_invariant_witness :
    TraceInv (step (exampleHeap (fun a => if a = 2 then 2 else 1),
      { spans := [0, 1], maxSize := 5, traceChan := [], errChan := [] }) (.push 2)) :=
  C7_trace_invariant.2.1
    (exampleHeap (fun a => if a = 2 then 2 else 1),
      { spans := [0, 1], maxSize := 5, traceChan := [], errChan := [] }) (.push 2)
    ⟨by decide, by decide⟩

/-- C8. For every buffer with fewer than `maxSize` spans and every span that
finds the buffer empty or has the trace identifier of the buffered spans,
`push` appends the span: the new span sequence is the old one followed by
the span, and the error channel, the delivery channel and `maxSize` are
unchanged. -/
theorem C8_push_appends (h : Heap) (s : traceBuffer) (span : Addr)
    (hroom : (s.spans.length : Int) < s.maxSize)
    (hsame : s.spans = [] ∨ ∀ a ∈ s.spans, (h a).TraceID = (h span).TraceID) :
    (push h s span).spans = s.spans ++ [span] ∧
    (push h s span).errChan = s.errChan ∧
    (push h s span).traceChan = s.traceChan ∧
    (push h s span).maxSize = s.maxSize := by
  have hp : push h s span = { s with spans := s.spans ++ [span] } := by
    apply push_accept h s span hroom
    intro first hf
    rcases hsame with he | hall
    · rw [he] at hf
      exact absurd hf (by simp)
    · exact hall first (List.mem_of_mem_head? hf)
  rw [hp]
  exact ⟨rfl, rfl, rfl, rfl⟩

/-- Witness of C8: a third span of trace 1 is appended to two buffered spans
of trace 1. -/
theorem C8_push_appends_witness :
    (push (exampleHeap (fun _ => 1))
        { spans := [0, 1], maxSize := 5, traceChan := [], errChan := [] } 2).spans
      = [0, 1] ++ [2] :=
  (C8_push_appends (exampleHeap (fun _ => 1))
    { spans := [0, 1], maxSize := 5, traceChan := [], errChan := [] } 2
    (by decide) (Or.inr (by decide))).1

/-- C9. `maxSize` bounds the number of buffered spans: a buffer that holds at
most `maxSize` spans still does after any operation, and `maxSize` itself is
never changed; so the bound holds in every state reached by any sequence of
operations from an empty buffer whose `maxSize` is not negative. -/
theorem C9_size_invariant :
    (∀ (st : Heap × traceBuffer) (op : Op), SizeInv st.2 →
      SizeInv (step st op).2 ∧ (step st op).2.maxSize = st.2.maxSize) ∧
    (∀ (h : Heap) (s : traceBuffer) (ops : List Op), s.spans = [] → 0 ≤ s.maxSize →
      ((run (h, s) ops).2.spans.length : Int) ≤ s.maxSize ∧
      (run (h, s) ops).2.maxSize = s.maxSize) := by
  refine ⟨SizeInv_step, ?_⟩
  intro h s ops hs hm
  have hinit : SizeInv (h, s).2 := by
    show ((s.spans.length : Nat) : Int) ≤ s.maxSize
    rw [hs]
    exact hm
  have hr := SizeInv_run ops (h, s) hinit
  refine ⟨?_, hr.2⟩
  have := hr.1
  unfold SizeInv at this
  rw [hr.2] at this
  exact this

/-- Witness of C9: three pushes into an empty buffer of capacity 2 leave at
most two spans. -/
theorem C9_size_invariant_witness :
    (((run (exampleHeap (fun _ => 1), emptyBuffer 2 [])
        [.push 0, .push 1, .push 2]).2.spans.length : Nat) : Int) ≤ (emptyBuffer 2 []).maxSize :=
  (C9_size_invariant.2 (exampleHeap (fun _ => 1)) (emptyBuffer 2 [])
    [.push 0, .push 1, .push 2] rfl (by decide)).1

/-- C10. Nil-receiver safety: for every span store and every span, `Push` and
`Flush` on a nil buffer return normally (no fault) and leave the receiver
nil; no buffer and hence no channel is touched, so no trace and no error is
sent. The guard is what makes them safe: the unexported methods fault on a
nil receiver. -/
theorem C10_nil_receiver (h : Heap) (span : Addr) :
    Push h none span = some none ∧ Flush h none = some none ∧
    callPush h none span = none ∧ callFlush h none = none :=
  ⟨rfl, rfl, rfl, rfl⟩

/-! ## Lemmas on the tracer -/

theorem worker_wg (h : Heap) (items : List Addr) :
    ∀ w : TracerState, (Tracer.worker h w items).t.wg = w.t.wg + (items.length : Int) := by
  induction items with
  | nil => intro w; simp [Tracer.worker]
  | cons x rest ih =>
    intro w
    show (Tracer.worker h (Tracer.workerBody h w x) rest).t.wg = _
    rw [ih]
    simp only [Tracer.workerBody, List.length_cons]
    push_cast
    omega

theorem worker_sent (h : Heap) (items : List Addr) :
    ∀ w : TracerState, (Tracer.worker h w items).sent = w.sent := by
  induction items with
  | nil => intro w; rfl
  | cons x rest ih =>
    intro w
    show (Tracer.worker h (Tracer.workerBody h w x) rest).sent = _
    rw [ih]
    rfl

theorem Trace_of_started (w : TracerState) (spanID : Nat) (service name resource : String)
    (hc : w.t.outgoingPacket ≠ none) :
    Tracer.Trace w spanID service name resource
      = (w, NewSpan spanID spanID 0 service name resource w.t.outgoingPacket) := by
  unfold Tracer.Trace
  simp only [if_neg hc]

theorem Trace_of_fresh (w : TracerState) (spanID : Nat) (service name resource : String)
    (hc : w.t.outgoingPacket = none) :
    Tracer.Trace w spanID service name resource
      = ({ w with t := { w.t with outgoingPacket := some w.chans },
                  chans := w.chans + 1, workers := w.workers + 1 },
         NewSpan spanID spanID 0 service name resource (some w.chans)) := by
  unfold Tracer.Trace
  simp only [if_pos hc]

/-! ## The claims on the tracer -/

/-- C11. For every tracer state and every service, name and resource,
`Trace` returns a root span: its `SpanID` and its `TraceID` are both the
identifier that `nextSpanID` yielded, its `ParentID` is 0, its `Service`,
`Name` and `Resource` are the arguments, it is not finished, and its sink is
the tracer's outgoing channel as it is after the call, which is a channel
(not nil); a channel that was there before the call is kept. -/
theorem C11_Trace_root_span (w : TracerState) (spanID : Nat)
    (service name resource : String) :
    (Tracer.Trace w spanID service name resource).2.SpanID = spanID ∧
    (Tracer.Trace w spanID service name resource).2.TraceID = spanID ∧
    (Tracer.Trace w spanID service name resource).2.SpanID
      = (Tracer.Trace w spanID service name resource).2.TraceID ∧
    (Tracer.Trace w spanID service name resource).2.ParentID = 0 ∧
    (Tracer.Trace w spanID service name resource).2.Service = service ∧
    (Tracer.Trace w spanID service name resource).2.Name = name ∧
    (Tracer.Trace w spanID service name resource).2.Resource = resource ∧
    (Tracer.Trace w spanID service name resource).2.finished = false ∧
    (Tracer.Trace w spanID service name resource).2.sink
      = (Tracer.Trace w spanID service name resource).1.t.outgoingPacket ∧
    (Tracer.Trace w spanID service name resource).1.t.outgoingPacket ≠ none ∧
    (∀ c, w.t.outgoingPacket = some c →
      (Tracer.Trace w spanID service name resource).2.sink = some c) := by
  refine ⟨rfl, rfl, rfl, rfl, rfl, rfl, rfl, rfl, rfl, ?_, ?_⟩
  · by_cases hc : w.t.outgoingPacket = none
    · rw [Trace_of_fresh w spanID service name resource hc]
      simp
    · rw [Trace_of_started w spanID service name resource hc]
      exact hc
  · intro c hc
    have hne : w.t.outgoingPacket ≠ none := by rw [hc]; simp
    rw [Trace_of_started w spanID service name resource hne]
    exact hc

/-- Witness of C11: a tracer that already has channel 4 hands it to the new
root span. -/
theorem C11_Trace_root_span_witness :
    (Tracer.Trace { t := { Transport := NewHTTPTransport "u", outgoingPacket := some 4, wg := 0 },
                    chans := 5, workers := 1, sent := [], log := [] }
        9 "svc" "op" "res").2.sink = some 4 :=
  (C11_Trace_root_span
    { t := { Transport := NewHTTPTransport "u", outgoingPacket := some 4, wg := 0 },
      chans := 5, workers := 1, sent := [], log := [] }
    9 "svc" "op" "res").2.2.2.2.2.2.2.2.2.2 4 rfl

/-- C12 (the code departs from the claim). The worker of a new tracer
receives one span. The claim has the counter back at 0 and `Wait` returning;
in the code the counter is raised by `t.wg.Add(1)` and never lowered
(`t.wg.Done()` is only named in a comment), so it is 1 and `Wait` does not
return. -/
theorem C12_counter_never_lowered :
    (Tracer.worker (exampleHeap (fun _ => 1)) newTracerState [0]).t.wg = 1 ∧
    Tracer.Wait (Tracer.worker (exampleHeap (fun _ => 1)) newTracerState [0]) = none ∧
    Tracer.Wait newTracerState = some newTracerState := by
  have h1 : (Tracer.worker (exampleHeap (fun _ => 1)) newTracerState [0]).t.wg = 1 := by
    rw [worker_wg]
    rfl
  refine ⟨h1, ?_, rfl⟩
  unfold Tracer.Wait
  rw [h1]
  rfl

/-- C13 (the code departs from the claim). The worker of a new tracer
receives one span, the root span of a trace. The claim has exactly one call
of `Transport.Send`, with that span; in the code the loop of `worker` only
raises the counter and logs, so no call of `Send` is made. -/
theorem C13_worker_never_sends :
    (Tracer.worker (exampleHeap (fun _ => 1)) newTracerState [0]).sent = [] ∧
    (Tracer.worker (exampleHeap (fun _ => 1)) newTracerState [0]).sent.length ≠ 1 := by
  have h1 : (Tracer.worker (exampleHeap (fun _ => 1)) newTracerState [0]).sent = [] := by
    rw [worker_sent]
    rfl
  refine ⟨h1, ?_⟩
  rw [h1]
  decide

/-- C15. `HTTPTransport.Send` reports no failure for the empty url, whatever
the header and the spans; and for every receiver (nil included), url, header
and span list the call returns, with the nil error. -/
theorem C15_Send_returns :
    (∀ (t : Option HTTPTransport) (header : String) (spans : List Addr),
      HTTPTransport.Send t "" header spans = some none) ∧
    (∀ (t : Option HTTPTransport) (url header : String) (spans : List Addr),
      HTTPTransport.Send t url header spans = some none) := by
  have hall : ∀ (t : Option HTTPTransport) (url header : String) (spans : List Addr),
      HTTPTransport.Send t url header spans = some none := by
    intro t url header spans
    unfold HTTPTransport.Send
    split <;> rfl
  exact ⟨fun t header spans => hall t "" header spans, hall⟩

/-- C16. `NewTracer` returns a tracer whose transport is the HTTP transport
with URL "http://localhost:7777/spans", whose outgoing channel is nil and
whose counter is 0; and `NewHTTPTransport u` has URL `u` for every `u`. -/
theorem C16_NewTracer :
    NewTracer.Transport = NewHTTPTransport "http://localhost:7777/spans" ∧
    NewTracer.Transport.URL = "http://localhost:7777/spans" ∧
    NewTracer.outgoingPacket = none ∧
    NewTracer.wg = 0 ∧
    (∀ u : String, (NewHTTPTransport u).URL = u) :=
  ⟨rfl, rfl, rfl, rfl, fun _ => rfl⟩

/-! ## Goroutines sharing one buffer: `flush` is a check, then an emit -/

/-- Run without interruption, the check and the emit are the method
`flush`. -/
theorem flush_eq_check_emit (h : Heap) (tb : traceBuffer) :
    flush h tb = if flushable h tb then tb.emit else tb := by
  cases hf : flushable h tb with
  | false => rw [flush_of_not_flushable h tb hf]; rfl
  | true => rw [flush_of_flushable h tb hf]; rfl

/-- C14 (the code departs from the claim). Two interleavings on a buffer of
capacity 2 and two spans of one trace. In the first, a goroutine pushes span
0, finishes it and passes the check of `flush`; before it takes the exclusive
lock another goroutine pushes span 1, which is unfinished; the emit then
sends `[0, 1]`: a trace with an unfinished span. In the second, two
goroutines pass the check on the buffer `[0]` one after the other, and then
emit one after the other: the second emit sends the empty sequence. The claim
says every emitted sequence is non-empty and holds finished spans only. -/
theorem C14_check_then_emit_race :
    (interleave { h := exampleHeap (fun _ => 1), tb := emptyBuffer 2 [], passed := 0 }
        [.push 0, .finish 0, .flushCheck, .push 1, .flushEmit]).map
      (fun s => (s.tb.traceChan, (s.h 1).finished)) = some ([[0, 1]], false) ∧
    (interleave { h := exampleHeap (fun _ => 1), tb := emptyBuffer 2 [], passed := 0 }
        [.push 0, .finish 0, .flushCheck, .flushCheck, .flushEmit, .flushEmit]).map
      (fun s => s.tb.traceChan) = some [[0], []] := by
  constructor
  · decide
  · decide

/-- C17. For every non-empty buffer, `flushable` returns true if and only if
every buffered span is finished; it does so whatever the order in which the
spans were finished (any sequence of finishes that covers the buffered spans
makes it true, whether the first span of the buffer comes first or last in
it); and a call of `flushable` leaves the state as it is. -/
theorem C17_flushable_iff :
    (∀ (h : Heap) (s : traceBuffer), s.spans ≠ [] →
      (flushable h s = true ↔ ∀ a ∈ s.spans, (h a).finished = true)) ∧
    (∀ (h : Heap) (s : traceBuffer) (order : List Addr), s.spans ≠ [] →
      (∀ a ∈ s.spans, a ∈ order) → flushable (finishAll h order) s = true) ∧
    (∀ st : Heap × traceBuffer, step st .flushable = st) := by
  refine ⟨?_, ?_, fun _ => rfl⟩
  · intro h s hne
    rw [flushable_eq_true]
    exact ⟨fun hx => hx.2, fun hx => ⟨hne, hx⟩⟩
  · intro h s order hne hcov
    rw [flushable_eq_true]
    exact ⟨hne, fun a ha => finishAll_finished order h a (hcov a ha)⟩

/-- Witness of C17: the buffer holds the root span 0 and two children; the
root is finished first and child 2 last. -/
theorem C17_flushable_iff_witness :
    flushable (finishAll (exampleHeap (fun _ => 1)) [0, 1, 2])
      { spans := [0, 1, 2], maxSize := 5, traceChan := [], errChan := [] } = true :=
  C17_flushable_iff.2.1 (exampleHeap (fun _ => 1))
    { spans := [0, 1, 2], maxSize := 5, traceChan := [], errChan := [] } [0, 1, 2]
    (by decide) (by decide)

theorem traceCalls_of_started (calls : List TraceArgs) :
    ∀ (w : TracerState) (c : Nat), w.t.outgoingPacket = some c →
      (traceCalls w calls).1 = w ∧ (∀ sp ∈ (traceCalls w calls).2, sp.sink = some c) ∧
      (traceCalls w calls).2.length = calls.length := by
  induction calls with
  | nil =>
    intro w c _
    exact ⟨rfl, fun sp hsp => absurd hsp (List.not_mem_nil sp), rfl⟩
  | cons x rest ih =>
    intro w c hc
    have hne : w.t.outgoingPacket ≠ none := by rw [hc]; simp
    have ht := Trace_of_started w x.spanID x.service x.name x.resource hne
    have hrest := ih w c hc
    unfold traceCalls
    simp only [ht]
    refine ⟨hrest.1, ?_, by simp [hrest.2.2]⟩
    intro sp hsp
    rcases List.mem_cons.mp hsp with h1 | h1
    · rw [h1]
      exact hc
    · exact hrest.2.1 sp h1

/-- C18. Sequential use of one tracer. The first call of `Trace` on a tracer
whose outgoing channel is nil makes the channel and starts one worker; a call
on a tracer that has a channel leaves the whole state unchanged (same
channel, no worker started); so any sequence of `n ≥ 1` calls on a tracer
without a channel starts exactly one worker, makes exactly one channel, and
all the spans returned, one for each call, have that channel as sink. -/
theorem C18_single_initialisation :
    (∀ (w : TracerState) (spanID : Nat) (service name resource : String),
      w.t.outgoingPacket = none →
      (Tracer.Trace w spanID service name resource).1.t.outgoingPacket = some w.chans ∧
      (Tracer.Trace w spanID service name resource).1.workers = w.workers + 1 ∧
      (Tracer.Trace w spanID service name resource).1.chans = w.chans + 1) ∧
    (∀ (w : TracerState) (spanID : Nat) (service name resource : String),
      w.t.outgoingPacket ≠ none →
      (Tracer.Trace w spanID service name resource).1 = w) ∧
    (∀ (w : TracerState) (calls : List TraceArgs),
      w.t.outgoingPacket = none → calls ≠ [] →
      (traceCalls w calls).1.workers = w.workers + 1 ∧
      (traceCalls w calls).1.chans = w.chans + 1 ∧
      (traceCalls w calls).1.t.outgoingPacket = some w.chans ∧
      (∀ sp ∈ (traceCalls w calls).2, sp.sink = some w.chans) ∧
      (traceCalls w calls).2.length = calls.length) := by
  refine ⟨?_, ?_, ?_⟩
  · intro w spanID service name resource hc
    rw [Trace_of_fresh w spanID service name resource hc]
    exact ⟨rfl, rfl, rfl⟩
  · intro w spanID service name resource hc
    rw [Trace_of_started w spanID service name resource hc]
  · intro w calls hc hne
    obtain ⟨x, rest, hcalls⟩ := List.exists_cons_of_ne_nil hne
    subst hcalls
    have ht := Trace_of_fresh w x.spanID x.service x.name x.resource hc
    have hrest := traceCalls_of_started rest
      { w with t := { w.t with outgoingPacket := some w.chans },
               chans := w.chans + 1, workers := w.workers + 1 } w.chans rfl
    unfold traceCalls
    simp only [ht]
    rw [hrest.1]
    refine ⟨rfl, rfl, rfl, ?_, by simp [hrest.2.2]⟩
    intro sp hsp
    rcases List.mem_cons.mp hsp with h1 | h1
    · rw [h1]
      rfl
    · exact hrest.2.1 sp h1

/-- Witness of C18: three calls of `Trace` on a new tracer start one
worker. -/
theorem C18_single_initialisation_witness :
    (traceCalls newTracerState
      [⟨11, "svc", "a", "r"⟩, ⟨12, "svc", "b", "r"⟩, ⟨13, "svc", "c", "r"⟩]).1.workers
      = newTracerState.workers + 1 :=
  (C18_single_initialisation.2.2 newTracerState
    [⟨11, "svc", "a", "r"⟩, ⟨12, "svc", "b", "r"⟩, ⟨13, "svc", "c", "r"⟩]
    rfl (by simp)).1

theorem run_zero_capacity (ops : List Op) :
    ∀ st : Heap × traceBuffer, st.2.spans = [] → st.2.maxSize = 0 →
      (run st ops).2 =
        { st.2 with errChan := st.2.errChan ++
            List.replicate (ops.filter Op.isPush).length errExceed } := by
  induction ops with
  | nil => intro st _ _; simp [run]
  | cons op rest ih =>
    intro st hs hm
    obtain ⟨h, tb⟩ := st
    replace hs : tb.spans = [] := hs
    replace hm : tb.maxSize = 0 := hm
    show (run (step (h, tb) op) rest).2 = _
    cases op with
    | push a =>
      have hp : push h tb a = { tb with errChan := tb.errChan ++ [errExceed] } :=
        push_full h tb a (by rw [hm, hs]; simp)
      have := ih (h, push h tb a) (by rw [hp]; exact hs) (by rw [hp]; exact hm)
      show (run (h, push h tb a) rest).2 = _
      rw [this, hp]
      simp [Op.isPush, List.replicate_succ]
    | flushable =>
      have := ih (h, tb) hs hm
      show (run (h, tb) rest).2 = _
      rw [this]
      simp [Op.isPush]
    | flush =>
      have := ih (h, tb) hs hm
      show (run (h, flush h tb) rest).2 = _
      rw [flush_nil h tb hs, this]
      simp [Op.isPush]
    | finish a =>
      have := ih (finish h a, tb) hs hm
      show (run (finish h a, tb) rest).2 = _
      rw [this]
      simp [Op.isPush]

/-- C19. A buffer built by `newTraceBuffer` has no spans and `maxSize` 0, and
no operation changes `maxSize`. So after any sequence of operations the
buffer still has no spans and `maxSize` 0, the delivery channel holds what it
held at construction (no trace was sent), the error channel has gained one
overflow error for each push; `flushable` is false, `flush` changes nothing,
and a further push of any span is rejected with exactly one overflow
error. -/
theorem C19_newTraceBuffer_rejects_all (h : Heap) (traces : List (List Addr))
    (errs : List String) (ops : List Op) (span : Addr) :
    (newTraceBuffer traces errs).spans = [] ∧
    (newTraceBuffer traces errs).maxSize = 0 ∧
    (run (h, newTraceBuffer traces errs) ops).2.spans = [] ∧
    (run (h, newTraceBuffer traces errs) ops).2.maxSize = 0 ∧
    (run (h, newTraceBuffer traces errs) ops).2.traceChan = traces ∧
    (run (h, newTraceBuffer traces errs) ops).2.errChan
      = errs ++ List.replicate (ops.filter Op.isPush).length errExceed ∧
    flushable (run (h, newTraceBuffer traces errs) ops).1
      (run (h, newTraceBuffer traces errs) ops).2 = false ∧
    flush (run (h, newTraceBuffer traces errs) ops).1
      (run (h, newTraceBuffer traces errs) ops).2
      = (run (h, newTraceBuffer traces errs) ops).2 ∧
    push (run (h, newTraceBuffer traces errs) ops).1
      (run (h, newTraceBuffer traces errs) ops).2 span
      = { (run (h, newTraceBuffer traces errs) ops).2 with
          errChan := (run (h, newTraceBuffer traces errs) ops).2.errChan ++ [errExceed] } := by
  have hr := run_zero_capacity ops (h, newTraceBuffer traces errs) rfl rfl
  have hs : (run (h, newTraceBuffer traces errs) ops).2.spans = [] := by rw [hr]; rfl
  have hm : (run (h, newTraceBuffer traces errs) ops).2.maxSize = 0 := by rw [hr]; rfl
  refine ⟨rfl, rfl, hs, hm, by rw [hr]; rfl, by rw [hr]; rfl,
    flushable_nil _ _ hs, flush_nil _ _ hs, ?_⟩
  exact push_full _ _ span (by rw [hm, hs]; simp)

end Tracer
